import Mathlib

/- Verification of the chat route of the Metaplex Genesis MCP demo.
   The route (app/api/chat/route.ts) orchestrates a model call with one
   meta-tool, scans the resulting step history and final text for a
   transaction payload, synthesizes a reply when the model produced no
   text, and classifies the response.  This file embeds that logic:
   JavaScript values that flow through JSON.parse / JSON.stringify are
   modelled by the inductive type `Json` together with executable
   `Json.parse` and `Json.stringify` functions (numbers are modelled as
   integers, string escapes cover the common cases; this is the fragment
   the route's data ever exercises). -/

/- Characters treated as whitespace, both by the JSON grammar and by the
   regex character class \s as used in the route's two match patterns. -/
def isWsChar (c : Char) : Bool :=
  c = ' ' || c = '\t' || c = '\n' || c = '\r'

/- A JSON value (the image of JSON.parse / the domain of JSON.stringify). -/
inductive Json where
  | null : Json
  | bool (b : Bool) : Json
  | num (n : Int) : Json
  | str (s : String) : Json
  | arr (items : List Json) : Json
  | obj (fields : List (String × Json)) : Json

/- JavaScript truthiness of a JSON value (empty string, zero, null and
   false are falsy; every object and array is truthy). -/
def Json.truthy : Json → Bool
  | .null => false
  | .bool b => b
  | .num n => n != 0
  | .str s => s != ""
  | .arr _ => true
  | .obj _ => true

/- Property access `v[k]` on a parsed value: defined only on objects.
   JSON.parse keeps the last of duplicate keys, so the fold takes the
   last binding. -/
def Json.getField : Json → String → Option Json
  | .obj fields, k => fields.foldl (fun acc kv => if kv.1 = k then some kv.2 else acc) none
  | _, _ => none

/- The JavaScript test `v.k` used by the route: truthiness of a field. -/
def jsonFieldTruthy (j : Json) (k : String) : Bool :=
  match j.getField k with
  | some v => v.truthy
  | none => false

/- JSON string escaping as performed by JSON.stringify on the characters
   the route's strings can contain. -/
def escapeChar (c : Char) : List Char :=
  if c = '"' then ['\\', '"']
  else if c = '\\' then ['\\', '\\']
  else if c = '\n' then ['\\', 'n']
  else if c = '\t' then ['\\', 't']
  else if c = '\r' then ['\\', 'r']
  else [c]

def escChars (l : List Char) : List Char :=
  (l.map escapeChar).flatten

def escString (s : String) : List Char :=
  '"' :: escChars s.toList ++ ['"']

/- Decimal digits of a natural number, most significant first. -/
def natChars (n : Nat) : List Char :=
  (Nat.toDigits 10 n)

def intChars (n : Int) : List Char :=
  if n < 0 then '-' :: natChars n.natAbs else natChars n.natAbs

def nullChars : List Char := "null".toList
def trueChars : List Char := "true".toList
def falseChars : List Char := "false".toList

mutual
def Json.stringifyChars : Json → List Char
  | .null => nullChars
  | .bool true => trueChars
  | .bool false => falseChars
  | .num n => intChars n
  | .str s => escString s
  | .arr items => '[' :: stringifyItems items ++ [']']
  | .obj fields => '\x7b' :: stringifyFields fields ++ ['\x7d']

def stringifyItems : List Json → List Char
  | [] => []
  | [x] => Json.stringifyChars x
  | x :: y :: xs => Json.stringifyChars x ++ ',' :: stringifyItems (y :: xs)

def stringifyFields : List (String × Json) → List Char
  | [] => []
  | [kv] => escString kv.1 ++ ':' :: Json.stringifyChars kv.2
  | kv :: kw :: fs => escString kv.1 ++ ':' :: Json.stringifyChars kv.2 ++ ',' :: stringifyFields (kw :: fs)
end

/- JSON.stringify(v) (compact form, no third argument). -/
def Json.stringify (j : Json) : String :=
  String.mk j.stringifyChars

def spacesN (n : Nat) : List Char :=
  List.replicate n ' '


mutual
/- JSON.stringify(v, null, 2): two-space pretty printing, as used for the
   synthesized transaction announcement. -/
def jIndent : Nat → Json → List Char
  | _, .null => nullChars
  | _, .bool true => trueChars
  | _, .bool false => falseChars
  | _, .num n => intChars n
  | _, .str s => escString s
  | _, .arr [] => ['[', ']']
  | i, .arr (x :: xs) => '[' :: '\n' :: jIndentItems (i + 2) (x :: xs) ++ '\n' :: spacesN i ++ [']']
  | _, .obj [] => ['\x7b', '\x7d']
  | i, .obj (f :: fs) => '\x7b' :: '\n' :: jIndentFields (i + 2) (f :: fs) ++ '\n' :: spacesN i ++ ['\x7d']

def jIndentItems : Nat → List Json → List Char
  | _, [] => []
  | i, [x] => spacesN i ++ jIndent i x
  | i, x :: y :: xs => spacesN i ++ jIndent i x ++ ',' :: '\n' :: jIndentItems i (y :: xs)

def jIndentFields : Nat → List (String × Json) → List Char
  | _, [] => []
  | i, [kv] => spacesN i ++ escString kv.1 ++ ':' :: ' ' :: jIndent i kv.2
  | i, kv :: kw :: fs => spacesN i ++ escString kv.1 ++ ':' :: ' ' :: jIndent i kv.2 ++ ',' :: '\n' :: jIndentFields i (kw :: fs)
end

def Json.stringifyPretty (j : Json) : String :=
  String.mk (jIndent 0 j)

/- Boolean prefix test on character lists (used both by the parser model
   and to embed String.prototype.startsWith checks of the route). -/
def listPrefixOf : List Char → List Char → Bool
  | [], _ => true
  | _ :: _, [] => false
  | a :: as, b :: bs => a = b && listPrefixOf as bs

/- Boolean substring test (embeds String.prototype.includes). -/
def listContainsSub (hay pat : List Char) : Bool :=
  match hay with
  | [] => listPrefixOf pat []
  | _ :: t => listPrefixOf pat hay || listContainsSub t pat

def strStartsWith (s pat : String) : Bool :=
  listPrefixOf pat.toList s.toList

def strIncludes (s pat : String) : Bool :=
  listContainsSub s.toList pat.toList

/- Indices (in increasing order) at which `pat` occurs in the list. -/
def occIdx (pat : List Char) : List Char → List Nat
  | [] => []
  | c :: t => (if listPrefixOf pat (c :: t) then [0] else []) ++ (occIdx pat t).map (· + 1)

/- Decoding of a string escape sequence accepted by JSON.parse. -/
def escDecode (c : Char) : Option Char :=
  if c = '"' then some '"'
  else if c = '\\' then some '\\'
  else if c = '/' then some '/'
  else if c = 'n' then some '\n'
  else if c = 't' then some '\t'
  else if c = 'r' then some '\r'
  else if c = 'b' then some (Char.ofNat 8)
  else if c = 'f' then some (Char.ofNat 12)
  else none

/- Body of a JSON string literal, after the opening quote: returns the
   decoded characters and the input following the closing quote. -/
def parseStrBody : List Char → Option (List Char × List Char)
  | [] => none
  | c :: rest =>
    if c = '"' then some ([], rest)
    else if c = '\\' then
      match rest with
      | [] => none
      | e :: rest2 =>
        match escDecode e with
        | some d => (parseStrBody rest2).map (fun pr => (d :: pr.1, pr.2))
        | none => none
    else (parseStrBody rest).map (fun pr => (c :: pr.1, pr.2))

def digToNat (c : Char) : Nat := c.toNat - 48

def parseNatAux : List Char → Nat → Nat × List Char
  | [], acc => (acc, [])
  | c :: rest, acc =>
    if c.isDigit then parseNatAux rest (acc * 10 + digToNat c) else (acc, c :: rest)

/- Number literals (integers; the route's payloads never carry fractions,
   so the model restricts the numeric grammar to integers). -/
def parseNumFrom (cs : List Char) : Option (Json × List Char) :=
  match cs with
  | [] => none
  | c :: rest =>
    if c = '-' then
      match rest with
      | [] => none
      | d :: _ =>
        if d.isDigit then
          let pr := parseNatAux rest 0
          some (.num (-(pr.1 : Int)), pr.2)
        else none
    else if c.isDigit then
      let pr := parseNatAux cs 0
      some (.num (pr.1 : Int), pr.2)
    else none

def trueTail : List Char := ['r', 'u', 'e']
def falseTail : List Char := ['a', 'l', 's', 'e']
def nullTail : List Char := ['u', 'l', 'l']

mutual
/- Recursive descent over the JSON grammar, with a fuel argument (one
   unit per recursion step; the top level supplies length + 1, which the
   completeness lemmas below show is enough for the values the route
   serializes). -/
def parseVal : Nat → List Char → Option (Json × List Char)
  | 0, _ => none
  | fuel + 1, cs0 =>
    match cs0.dropWhile isWsChar with
    | [] => none
    | c :: rest =>
      if c = '\x7b' then
        match rest.dropWhile isWsChar with
        | [] => none
        | d :: r2 =>
          if d = '\x7d' then some (.obj [], r2)
          else
            match parseMembers fuel (d :: r2) with
            | some pr => some (Json.obj pr.1, pr.2)
            | none => none
      else if c = '[' then
        match rest.dropWhile isWsChar with
        | [] => none
        | d :: r2 =>
          if d = ']' then some (.arr [], r2)
          else
            match parseElems fuel (d :: r2) with
            | some pr => some (Json.arr pr.1, pr.2)
            | none => none
      else if c = '"' then
        match parseStrBody rest with
        | some pr => some (Json.str (String.mk pr.1), pr.2)
        | none => none
      else if c = 't' then
        if listPrefixOf trueTail rest then some (.bool true, rest.drop 3) else none
      else if c = 'f' then
        if listPrefixOf falseTail rest then some (.bool false, rest.drop 4) else none
      else if c = 'n' then
        if listPrefixOf nullTail rest then some (.null, rest.drop 3) else none
      else parseNumFrom (c :: rest)

/- Object members: `"key" : value` separated by commas, ending at the
   closing brace (which is consumed). -/
def parseMembers : Nat → List Char → Option (List (String × Json) × List Char)
  | 0, _ => none
  | fuel + 1, cs0 =>
    match cs0.dropWhile isWsChar with
    | [] => none
    | c :: rest =>
      if c = '"' then
        match parseStrBody rest with
        | some pr =>
          match pr.2.dropWhile isWsChar with
          | [] => none
          | d :: r3 =>
            if d = ':' then
              match parseVal fuel r3 with
              | some vr =>
                match vr.2.dropWhile isWsChar with
                | [] => none
                | e :: r6 =>
                  if e = ',' then
                    match parseMembers fuel r6 with
                    | some mr => some ((String.mk pr.1, vr.1) :: mr.1, mr.2)
                    | none => none
                  else if e = '\x7d' then some ([(String.mk pr.1, vr.1)], r6)
                  else none
              | none => none
            else none
        | none => none
      else none

/- Array elements separated by commas, ending at the closing bracket. -/
def parseElems : Nat → List Char → Option (List Json × List Char)
  | 0, _ => none
  | fuel + 1, cs0 =>
    match parseVal fuel cs0 with
    | some vr =>
      match vr.2.dropWhile isWsChar with
      | [] => none
      | e :: r2 =>
        if e = ',' then
          match parseElems fuel r2 with
          | some er => some (vr.1 :: er.1, er.2)
          | none => none
        else if e = ']' then some ([vr.1], r2)
        else none
    | none => none
end

/- JSON.parse as a total function: some value on success, none where the
   JavaScript original would throw (the route always wraps the call in
   try/catch, so the Option is the faithful shape). -/
def Json.parse (s : String) : Option Json :=
  match parseVal (s.length + 1) s.toList with
  | some pr => if pr.2.dropWhile isWsChar = [] then some pr.1 else none
  | none => none

/- String constants of the route, kept as named definitions. -/
def errHead1 : String := "Error:"
def errHead2 : String := "Error executing"
def errWord : String := "Error"
def argErrMsg : String := "Error: arguments must be a valid JSON string."
def execErrHead : String := "Error executing tool: "
def toolFailMsg : String := "Tool execution failed with an unknown error."
def noContentMsg : String := "Tool executed successfully but returned no content."
def issueHead : String := "There was an issue: "
def trHead : String := "Tool result: "
def noDataMsg : String := "I processed your request but the tool didn\x27t return any data. Please try again."
def announceA : String := "I\x27ve prepared the transaction to create your token. Please sign it to complete the process.\n\n```json\n"
def announceB : String := "\n```"
def nlStr : String := "\n"
def txKey : String := "transaction"
def baseMintKey : String := "baseMint"
def typeKey : String := "type"
def textKey : String := "text"
def textTag : String := "text"
def toolResTag : String := "tool-result"
def swapName : String := "swap"
def createName : String := "create_genesis_account"
def resTool : String := "tool_result"
def resText : String := "text"

/- One item of a ToolResult content array, as returned by the MCP
   bridge's callTool: an optional text carrying item. -/
structure ContentItem where
  type : String
  text : Option String

/- The ToolResult envelope `content?: array, isError?` (a non-array or
   absent content field is modelled as none, matching the route's
   Array.isArray guard). -/
structure ToolResult where
  content : Option (List ContentItem)
  isError : Bool

def textTruthy : Option String → Bool
  | some s => s != ""
  | none => false

/- The text fragments the executor collects:
   result.content.filter(c => c.type === "text" && c.text).map(c => c.text). -/
def collectTexts (r : ToolResult) : List String :=
  match r.content with
  | some items =>
    (items.filter (fun c => c.type == textTag && textTruthy c.text)).filterMap (fun c => c.text)
  | none => []

/- The `execute` callback of the execute_mcp_tool definition: parse the
   argument string, call the bridge (modelled as a function returning
   either a thrown error message or a ToolResult), and render the result
   for the model.  Every failure is converted to a string, never thrown. -/
def executeTool (argsStr : String) (bridge : Json → Except String ToolResult) : String :=
  match Json.parse argsStr with
  | none => argErrMsg
  | some args =>
    match bridge args with
    | .error m => execErrHead ++ m
    | .ok r =>
      let texts := collectTexts r
      if texts ≠ [] then String.intercalate nlStr texts
      else if r.isError then toolFailMsg
      else noContentMsg

/- A value recorded in the step trace: either a string (the usual case,
   since the executor returns strings) or some other JSON-serializable
   value, which the route turns into a string via JSON.stringify. -/
inductive JsVal where
  | str (s : String) : JsVal
  | val (j : Json) : JsVal

/- resultStr = output != null ? (typeof output === "string" ? output
   : JSON.stringify(output)) : "" -/
def mkResultStr : Option JsVal → String
  | none => ""
  | some (.str s) => s
  | some (.val Json.null) => ""
  | some (.val j) => Json.stringify j

/- One item of step.content; the route only looks at items whose type is
   "tool-result" and at their `output` value. -/
structure StepItem where
  type : String
  output : Option JsVal

/- One record of step.toolResults (the fallback text extraction only
   reads tr.result). -/
structure ToolResEntry where
  result : Option JsVal

/- One step of the orchestrator's step history. -/
structure Step where
  content : Option (List StepItem)
  toolCalls : Nat
  toolResults : Option (List ToolResEntry)

/- Accumulator of the step-history scan: (transactionData, toolError). -/
abbrev ScanAcc := Option Json × Option String

/- One item of the legacy array-of-content scan.  A `text` field that is
   truthy but not a string makes the original code throw a TypeError at
   item.text.startsWith, which the enclosing catch turns into the
   includes-based error check; Except.error models that abort, carrying
   the assignments already made. -/
def legacyItem (acc : ScanAcc) (item : Json) : Except ScanAcc ScanAcc :=
  match item.getField typeKey with
  | some (Json.str t) =>
    if t = textTag then
      match item.getField textKey with
      | some v =>
        if v.truthy then
          match v with
          | Json.str s =>
            if strStartsWith s errHead1 then Except.ok (acc.1, some s)
            else
              match Json.parse s with
              | some inner =>
                if jsonFieldTruthy inner txKey then Except.ok (some inner, acc.2)
                else Except.ok acc
              | none => Except.ok acc
          | _ => Except.error acc
        else Except.ok acc
      | none => Except.ok acc
    else Except.ok acc
  | _ => Except.ok acc

def legacyFold : List Json → ScanAcc → Except ScanAcc ScanAcc
  | [], acc => Except.ok acc
  | it :: rest, acc =>
    match legacyItem acc it with
    | Except.ok acc2 => legacyFold rest acc2
    | Except.error acc2 => Except.error acc2

/- Processing of one step-content item (route lines: the for-loop body
   over step.content).  Mirrors, in order: the empty-string skip, the
   error-prefix check, the JSON.parse attempt with the direct transaction
   check, the legacy array walk, and the catch-side includes check. -/
def scanItem (acc : ScanAcc) (it : StepItem) : ScanAcc :=
  if it.type = toolResTag then
    let resultStr := mkResultStr it.output
    if resultStr = "" then acc
    else if strStartsWith resultStr errHead1 || strStartsWith resultStr errHead2 then
      (acc.1, some resultStr)
    else
      match Json.parse resultStr with
      | some parsed =>
        if jsonFieldTruthy parsed txKey then (some parsed, acc.2)
        else
          match parsed with
          | Json.arr items =>
            match legacyFold items acc with
            | Except.ok acc2 => acc2
            | Except.error acc2 =>
              if strIncludes resultStr errWord then (acc2.1, some resultStr) else acc2
          | _ => acc
      | none =>
        if strIncludes resultStr errWord then (acc.1, some resultStr) else acc
  else acc

def scanStep (acc : ScanAcc) (st : Step) : ScanAcc :=
  match st.content with
  | some items => items.foldl scanItem acc
  | none => acc

/- The whole step-history scan of the Result Extractor. -/
def scanSteps (steps : List Step) : ScanAcc :=
  steps.foldl scanStep (none, none)

/- result.steps?.some(s => s.toolCalls && s.toolCalls.length > 0) -/
def hadAnyToolCalls (steps : List Step) : Bool :=
  steps.any (fun s => s.toolCalls != 0)

def jsValTruthy : JsVal → Bool
  | .str s => s != ""
  | .val j => j.truthy

def jsValStr : JsVal → String
  | .str s => s
  | .val j => Json.stringify j

/- The fallback extraction of the last non-empty toolResults text. -/
def lastTRText (steps : List Step) : String :=
  steps.foldl
    (fun acc st =>
      match st.toolResults with
      | some trs =>
        trs.foldl
          (fun a tr =>
            match tr.result with
            | some v =>
              if jsValTruthy v then
                let r := jsValStr v
                if r ≠ "" then r else a
              else a
            | none => a)
          acc
      | none => acc)
    ""

/- The synthesized announcement for a found payload. -/
def announceMsg (p : Json) : String :=
  announceA ++ Json.stringifyPretty p ++ announceB

/- Content synthesis when the model produced no final text: payload
   announcement, else tool error, else tool-call fallback, else nothing. -/
def synthContent (text : String) (td : Option Json) (te : Option String) (steps : List Step) : String :=
  if text = "" then
    match td with
    | some p => announceMsg p
    | none =>
      match te with
      | some e => issueHead ++ e
      | none =>
        if hadAnyToolCalls steps then
          let t := lastTRText steps
          if t ≠ "" then trHead ++ t else noDataMsg
        else text
  else text

def fenceOpenL : List Char := "```json".toList
def ticksL : List Char := "```".toList
def txTokenL : List Char := "\"transaction\"".toList

/- Attempt of the fenced regex
   /```json\s*(\x7b[\s\S]*?"transaction"[\s\S]*?\x7d)\s*```/
   at the start of `s`: the literal fence, a maximal whitespace run, a
   brace, then (lazy quantifier order) the earliest "transaction" token,
   the earliest closing brace after it whose tail is whitespace followed
   by three backticks.  Returns the captured group. -/
def tryFencedAt (s : List Char) : Option String :=
  if listPrefixOf fenceOpenL s then
    let r := (s.drop fenceOpenL.length).dropWhile isWsChar
    match r with
    | c :: _ =>
      if c = '\x7b' then
        (occIdx txTokenL (r.drop 1)).findSome? (fun k =>
          let base := 1 + k + txTokenL.length
          (occIdx ['\x7d'] (r.drop base)).findSome? (fun m =>
            let capLen := base + m + 1
            let tail := (r.drop capLen).dropWhile isWsChar
            if listPrefixOf ticksL tail then some (String.mk (r.take capLen)) else none))
      else none
    | [] => none
  else none

/- Leftmost-match search over every start position, as the regex engine
   performs it. -/
def scanFenced : List Char → Option String
  | [] => none
  | c :: t =>
    match tryFencedAt (c :: t) with
    | some cap => some cap
    | none => scanFenced t

def fencedMatch (s : String) : Option String :=
  scanFenced s.toList

/- Attempt of the bare regex /(\x7b[\s\S]*?"transaction"[\s\S]*?\x7d)/ at
   the start of `s`. -/
def tryBareAt (s : List Char) : Option String :=
  match s with
  | c :: rest =>
    if c = '\x7b' then
      (occIdx txTokenL rest).findSome? (fun k =>
        let base := 1 + k + txTokenL.length
        (occIdx ['\x7d'] (s.drop base)).findSome? (fun m =>
          some (String.mk (s.take (base + m + 1)))))
    else none
  | [] => none

def scanBare : List Char → Option String
  | [] => none
  | c :: t =>
    match tryBareAt (c :: t) with
    | some cap => some cap
    | none => scanBare t

def bareMatch (s : String) : Option String :=
  scanBare s.toList

/- The final-text scan (route lines 372-388): the fenced pattern first;
   the bare pattern only when the fenced one does not match; a capture
   that fails JSON.parse silently yields no payload. -/
def finalTextScan (content : String) : Option Json :=
  match fencedMatch content with
  | some cap => Json.parse cap
  | none =>
    match bareMatch content with
    | some cap => Json.parse cap
    | none => none

/- The tool-name heuristic: "swap" when the payload's baseMint field is
   absent or falsy, else the creation tool name. -/
def inferToolName (td : Json) : String :=
  if jsonFieldTruthy td baseMintKey then createName else swapName

/- One item of the response's result.content array. -/
structure RespItem where
  type : String
  text : String

/- The JSON body of the 200 response. -/
structure ChatResponse where
  type : String
  content : String
  tool : Option String
  result : Option (List RespItem)

/- The response content: the model's final text, or the synthesized
   reply when that text is empty. -/
def responseContent (text : String) (steps : List Step) : String :=
  synthContent text (scanSteps steps).1 (scanSteps steps).2 steps

/- The payload the response ends up carrying: the step-history scan
   result, else (when the content is non-empty) the final-text scan. -/
def requestPayload (text : String) (steps : List Step) : Option Json :=
  match (scanSteps steps).1 with
  | some p => some p
  | none =>
    if responseContent text steps ≠ "" then finalTextScan (responseContent text steps)
    else none

/- The 200 response the route builds from the model's final text and the
   step history (everything after the generateText call; transport and
   model failures, which are the only 500 path, happen before this
   point). -/
def processResult (text : String) (steps : List Step) : ChatResponse :=
  match requestPayload text steps with
  | some p =>
    ⟨resTool, responseContent text steps, some (inferToolName p),
      some [⟨textTag, Json.stringify p⟩]⟩
  | none => ⟨resText, responseContent text steps, none, none⟩

def mkToolStep (s : String) : Step :=
  ⟨some [⟨toolResTag, some (JsVal.str s)⟩], 1, none⟩

theorem strMk_toList (s : String) : String.mk s.toList = s := rfl

theorem parse_empty_none : Json.parse "" = none := rfl

theorem parse_nonempty {s : String} {v : Json} (h : Json.parse s = some v) : s ≠ "" := by
  intro he
  rw [he, parse_empty_none] at h
  exact Option.noConfusion h

/- A string whose first character is E is not valid JSON. -/
theorem parse_none_of_head_E (s : String) (t : List Char) (h : s.toList = 'E' :: t) :
    Json.parse s = none := by
  have hl : s.length = t.length + 1 := by
    have : s.length = s.toList.length := rfl
    rw [this, h]; rfl
  unfold Json.parse
  rw [hl, h]
  have : parseVal (t.length + 1 + 1) ('E' :: t) = none := by
    simp [parseVal, List.dropWhile, parseNumFrom, isWsChar, Char.isDigit]
  rw [this]

theorem startsWith_shape {s : String} {c : Char} {pat : List Char}
    (h : listPrefixOf (c :: pat) s.toList = true) : ∃ t, s.toList = c :: t := by
  cases hs : s.toList with
  | nil => rw [hs] at h; simp [listPrefixOf] at h
  | cons a t =>
    rw [hs] at h
    simp only [listPrefixOf, Bool.and_eq_true, decide_eq_true_eq] at h
    exact ⟨t, by rw [h.1]⟩

theorem errHead1_toList : errHead1.toList = 'E' :: "rror:".toList := rfl

theorem errHead2_toList : errHead2.toList = 'E' :: "rror executing".toList := rfl

theorem parse_not_err1 {s : String} {v : Json} (h : Json.parse s = some v) :
    strStartsWith s errHead1 = false := by
  cases hb : strStartsWith s errHead1 with
  | false => rfl
  | true =>
    unfold strStartsWith at hb
    rw [errHead1_toList] at hb
    obtain ⟨t, ht⟩ := startsWith_shape hb
    rw [parse_none_of_head_E s t ht] at h
    exact Option.noConfusion h

theorem parse_not_err2 {s : String} {v : Json} (h : Json.parse s = some v) :
    strStartsWith s errHead2 = false := by
  cases hb : strStartsWith s errHead2 with
  | false => rfl
  | true =>
    unfold strStartsWith at hb
    rw [errHead2_toList] at hb
    obtain ⟨t, ht⟩ := startsWith_shape hb
    rw [parse_none_of_head_E s t ht] at h
    exact Option.noConfusion h

theorem startsWith_ne_empty {s : String} {pat : String} {c : Char} {rest : List Char}
    (hp : pat.toList = c :: rest) (h : strStartsWith s pat = true) : s ≠ "" := by
  intro he
  rw [he] at h
  unfold strStartsWith at h
  rw [hp] at h
  simp [listPrefixOf] at h

/- Processing of a tool-result item carrying an error-marked string:
   only the toolError slot is written. -/
theorem scanItem_err (acc : ScanAcc) (s : String) (h : strStartsWith s errHead1 = true) :
    scanItem acc ⟨toolResTag, some (JsVal.str s)⟩ = (acc.1, some s) := by
  have hne : s ≠ "" := startsWith_ne_empty errHead1_toList h
  simp [scanItem, mkResultStr, hne, h]

/- Processing of a tool-result item whose string parses to an object with
   a truthy transaction field: the payload slot is overwritten. -/
theorem scanItem_tx (acc : ScanAcc) (s : String) (p : Json)
    (hp : Json.parse s = some p) (ht : jsonFieldTruthy p txKey = true) :
    scanItem acc ⟨toolResTag, some (JsVal.str s)⟩ = (some p, acc.2) := by
  have hne : s ≠ "" := parse_nonempty hp
  simp [scanItem, mkResultStr, hne, parse_not_err1 hp, parse_not_err2 hp, hp, ht]

theorem scanStep_toolStep (acc : ScanAcc) (s : String) :
    scanStep acc (mkToolStep s) = scanItem acc ⟨toolResTag, some (JsVal.str s)⟩ := rfl

theorem processResult_content (text : String) (steps : List Step) :
    (processResult text steps).content = responseContent text steps := by
  unfold processResult
  cases h : requestPayload text steps <;> rfl

theorem processResult_type_or (text : String) (steps : List Step) :
    (processResult text steps).type = resText ∨ (processResult text steps).type = resTool := by
  unfold processResult
  cases h : requestPayload text steps
  · exact Or.inl rfl
  · exact Or.inr rfl

theorem requestPayload_of_scan_some {steps : List Step} {p : Json} (text : String)
    (h : (scanSteps steps).1 = some p) : requestPayload text steps = some p := by
  simp [requestPayload, h]

theorem processResult_of_payload {text : String} {steps : List Step} {p : Json}
    (h : requestPayload text steps = some p) :
    processResult text steps =
      ⟨resTool, responseContent text steps, some (inferToolName p),
        some [⟨textTag, Json.stringify p⟩]⟩ := by
  simp [processResult, h]

/- Characters that JSON.stringify leaves unescaped (the payload strings
   the route handles - base64 blobs, names, messages - are made of
   these). -/
def plainChar (c : Char) : Bool :=
  decide (c ≠ '"' ∧ c ≠ '\\' ∧ c ≠ '\n' ∧ c ≠ '\t' ∧ c ≠ '\r')

def plainStr (s : String) : Bool :=
  s.toList.all plainChar

/- A field whose value is a plain string with a plain key. -/
def flatField : String × Json → Bool
  | (k, .str v) => plainStr k && plainStr v
  | _ => false

/- An object all of whose fields are plain string valued: the shape of
   every TransactionPayload the spec describes (transaction,
   mintSecretKey, message are all strings). -/
def isFlatStrObj : Json → Bool
  | .obj fields => fields.all flatField
  | _ => false

theorem escapeChar_plain {c : Char} (h : plainChar c = true) : escapeChar c = [c] := by
  unfold plainChar at h
  rw [decide_eq_true_eq] at h
  obtain ⟨h1, h2, h3, h4, h5⟩ := h
  simp [escapeChar, h1, h2, h3, h4, h5]

theorem escChars_plain : ∀ (l : List Char), l.all plainChar = true → escChars l = l
  | [], _ => rfl
  | c :: t, h => by
    rw [List.all_cons, Bool.and_eq_true] at h
    simp [escChars, List.map_cons, escapeChar_plain h.1]
    have := escChars_plain t h.2
    unfold escChars at this
    simpa using this

theorem escString_plain (s : String) (h : plainStr s = true) :
    escString s = '"' :: s.toList ++ ['"'] := by
  unfold escString
  rw [escChars_plain _ h]

theorem dropWhile_keep {c : Char} (h : isWsChar c = false) (t : List Char) :
    List.dropWhile isWsChar (c :: t) = c :: t := by
  rw [List.dropWhile_cons, h]
  simp

theorem parseStrBody_plain :
    ∀ (l : List Char), l.all plainChar = true →
      ∀ (rest : List Char), parseStrBody (l ++ '"' :: rest) = some (l, rest)
  | [], _, rest => by
    rw [List.nil_append]
    unfold parseStrBody
    rw [if_pos rfl]
  | c :: t, h, rest => by
    rw [List.all_cons, Bool.and_eq_true] at h
    have hc := h.1
    unfold plainChar at hc
    rw [decide_eq_true_eq] at hc
    rw [List.cons_append]
    unfold parseStrBody
    rw [if_neg hc.1, if_neg hc.2.1]
    rw [parseStrBody_plain t h.2 rest]
    rfl

/- Completeness of the value parser on a serialized plain string. -/
theorem parseVal_str (s : String) (h : plainStr s = true) (fuel : Nat) (rest : List Char) :
    parseVal (fuel + 1) (escString s ++ rest) = some (Json.str s, rest) := by
  rw [escString_plain s h]
  have hshape : ('"' :: s.toList ++ ['"']) ++ rest = '"' :: (s.toList ++ '"' :: rest) := by
    simp
  rw [hshape]
  have hb : parseStrBody (s.data ++ '"' :: rest) = some (s.data, rest) :=
    parseStrBody_plain s.toList h rest
  simp [parseVal, List.dropWhile_cons, isWsChar, hb]

theorem parseMembers_flat_one (k w : String) (hk : plainStr k = true) (hw : plainStr w = true)
    (g : Nat) (rest : List Char) :
    parseMembers (g + 1 + 1) (stringifyFields [(k, Json.str w)] ++ '\x7d' :: rest) =
      some ([(k, Json.str w)], rest) := by
  have hshape : stringifyFields [(k, Json.str w)] ++ '\x7d' :: rest =
      '"' :: (k.data ++ '"' :: ':' :: (escString w ++ '\x7d' :: rest)) := by
    simp [stringifyFields, Json.stringifyChars, escString_plain k hk, String.toList]
  rw [hshape]
  have hks : parseStrBody (k.data ++ '"' :: (':' :: (escString w ++ '\x7d' :: rest))) =
      some (k.data, ':' :: (escString w ++ '\x7d' :: rest)) :=
    parseStrBody_plain k.toList hk _
  have hv := parseVal_str w hw g ('\x7d' :: rest)
  simp [parseMembers, List.dropWhile_cons, isWsChar, hks, hv]

theorem flatField_shape (kv : String × Json) (h : flatField kv = true) :
    ∃ w, kv.2 = Json.str w ∧ plainStr kv.1 = true ∧ plainStr w = true := by
  obtain ⟨k, v⟩ := kv
  cases v <;> simp [flatField] at h
  case str w => exact ⟨w, rfl, h.1, h.2⟩

theorem parseMembers_flat :
    ∀ (fs : List (String × Json)) (g : Nat) (rest : List Char),
      fs ≠ [] → fs.all flatField = true → fs.length ≤ g →
      parseMembers (g + 1) (stringifyFields fs ++ '\x7d' :: rest) = some (fs, rest)
  | [], _, _, hne, _, _ => absurd rfl hne
  | [(k, v)], g, rest, _, hf, hl => by
    rw [List.all_cons, Bool.and_eq_true] at hf
    obtain ⟨w, hv2, hk, hw⟩ := flatField_shape (k, v) hf.1
    simp only at hv2
    subst hv2
    cases g with
    | zero => simp at hl
    | succ g' => exact parseMembers_flat_one k w hk hw g' rest
  | (k, v) :: f2 :: fs, g, rest, _, hf, hl => by
    rw [List.all_cons, Bool.and_eq_true] at hf
    obtain ⟨hf1, hf2⟩ := hf
    obtain ⟨w, hv2, hk, hw⟩ := flatField_shape (k, v) hf1
    simp only at hv2
    subst hv2
    cases g with
    | zero => simp at hl
    | succ g' =>
    have hshape : stringifyFields ((k, Json.str w) :: f2 :: fs) ++ '\x7d' :: rest =
        '"' :: (k.data ++ '"' :: ':' ::
          (escString w ++ ',' :: (stringifyFields (f2 :: fs) ++ '\x7d' :: rest))) := by
      simp [stringifyFields, Json.stringifyChars, escString_plain k hk, String.toList]
    rw [hshape]
    have hks : parseStrBody
        (k.data ++ '"' :: (':' ::
          (escString w ++ ',' :: (stringifyFields (f2 :: fs) ++ '\x7d' :: rest)))) =
        some (k.data, ':' ::
          (escString w ++ ',' :: (stringifyFields (f2 :: fs) ++ '\x7d' :: rest))) :=
      parseStrBody_plain k.toList hk _
    have hv := parseVal_str w hw g'
      (',' :: (stringifyFields (f2 :: fs) ++ '\x7d' :: rest))
    have hrec : parseMembers (g' + 1) (stringifyFields (f2 :: fs) ++ '\x7d' :: rest) =
        some (f2 :: fs, rest) := by
      apply parseMembers_flat (f2 :: fs) g' rest (by simp) hf2
      simp at hl ⊢
      omega
    unfold parseMembers
    simp [List.dropWhile_cons, isWsChar, hks, hv, hrec]

theorem stringifyFields_cons_shape (kv : String × Json) (fs : List (String × Json)) :
    ∃ t, stringifyFields (kv :: fs) = '"' :: t := by
  cases fs with
  | nil =>
    refine ⟨escChars kv.1.toList ++ '"' :: ':' :: Json.stringifyChars kv.2, ?_⟩
    simp [stringifyFields, escString, String.toList]
  | cons kw fs' =>
    refine ⟨escChars kv.1.toList ++ '"' ::
      ':' :: (Json.stringifyChars kv.2 ++ ',' :: stringifyFields (kw :: fs')), ?_⟩
    simp [stringifyFields, escString, String.toList]

/- Completeness of the value parser on a serialized flat object. -/
theorem parseVal_flatObj (fs : List (String × Json)) (hf : fs.all flatField = true)
    (g : Nat) (rest : List Char) (hl : fs.length + 1 ≤ g) :
    parseVal (g + 1) ('\x7b' :: (stringifyFields fs ++ '\x7d' :: rest)) =
      some (Json.obj fs, rest) := by
  cases fs with
  | nil =>
    simp [parseVal, List.dropWhile_cons, isWsChar, stringifyFields]
  | cons kv fs' =>
    obtain ⟨t, ht⟩ := stringifyFields_cons_shape kv fs'
    cases g with
    | zero => simp at hl
    | succ g' =>
    have hm : parseMembers (g' + 1) (stringifyFields (kv :: fs') ++ '\x7d' :: rest) =
        some (kv :: fs', rest) := by
      apply parseMembers_flat (kv :: fs') g' rest (by simp) hf
      simp at hl ⊢
      omega
    rw [ht] at hm ⊢
    rw [List.cons_append] at hm
    simp [parseVal, List.dropWhile_cons, isWsChar, hm]

theorem fieldsLen : ∀ (fs : List (String × Json)), fs.length ≤ (stringifyFields fs).length
  | [] => le_refl _
  | [kv] => by simp [stringifyFields, escString]
  | kv :: kw :: fs => by
    have := fieldsLen (kw :: fs)
    simp [stringifyFields, escString] at this ⊢
    omega

/- Round trip: parsing the serialization of a flat string-valued object
   recovers the object. -/
theorem parse_stringify_flat (p : Json) (h : isFlatStrObj p = true) :
    Json.parse (Json.stringify p) = some p := by
  cases p <;> simp [isFlatStrObj] at h
  case obj fs =>
  have hchars : (Json.stringify (Json.obj fs)).toList =
      '\x7b' :: (stringifyFields fs ++ '\x7d' :: []) := by
    simp [Json.stringify, Json.stringifyChars, String.toList]
  have hlen : (Json.stringify (Json.obj fs)).length =
      (stringifyFields fs).length + 2 := by
    have h2 : (Json.stringify (Json.obj fs)).length =
        (Json.stringify (Json.obj fs)).toList.length := rfl
    rw [h2, hchars]
    simp
  have hfl := fieldsLen fs
  unfold Json.parse
  rw [hlen, hchars]
  have hv := parseVal_flatObj fs (by simpa using h) ((stringifyFields fs).length + 2) []
    (by omega)
  rw [hv]
  rfl

theorem intercalate_single (sep x : String) : String.intercalate sep [x] = x := by
  simp [String.intercalate, String.intercalate.go]

/-- C1: for a step history of two successive tool-result steps, the first
producing an error-marked string and the second a string parsing to an
object with a truthy transaction key, the response is a tool_result
carrying the second step's payload, and its content is the model text
(or, when that is empty, the payload announcement) - never the first
step's error string. -/
theorem claim1_two_step_error_then_payload (e r text : String) (p : Json)
    (he : strStartsWith e errHead1 = true)
    (hr : Json.parse r = some p)
    (ht : jsonFieldTruthy p txKey = true) :
    (processResult text [mkToolStep e, mkToolStep r]).type = resTool ∧
    (processResult text [mkToolStep e, mkToolStep r]).result =
      some [⟨textTag, Json.stringify p⟩] ∧
    (processResult text [mkToolStep e, mkToolStep r]).content =
      (if text = "" then announceMsg p else text) := by
  have hscan : scanSteps [mkToolStep e, mkToolStep r] = (some p, some e) := by
    show scanStep (scanStep (none, none) (mkToolStep e)) (mkToolStep r) = (some p, some e)
    rw [scanStep_toolStep (none, none) e, scanItem_err (none, none) e he]
    rw [scanStep_toolStep _ r, scanItem_tx _ r p hr ht]
  have hpay : requestPayload text [mkToolStep e, mkToolStep r] = some p :=
    requestPayload_of_scan_some text (by rw [hscan])
  rw [processResult_of_payload hpay]
  refine ⟨rfl, rfl, ?_⟩
  show responseContent text [mkToolStep e, mkToolStep r] = _
  unfold responseContent
  rw [hscan]
  unfold synthContent
  by_cases htext : text = ""
  · simp [htext]
  · simp [htext]

/-- Witness for C1 at a concrete error string and payload. -/
theorem claim1_witness :
    strStartsWith "Error: boom" errHead1 = true ∧
    Json.parse ("\x7b\"transaction\":\"abc\"\x7d") =
      some (Json.obj [("transaction", Json.str "abc")]) ∧
    jsonFieldTruthy (Json.obj [("transaction", Json.str "abc")]) txKey = true ∧
    (processResult "" [mkToolStep "Error: boom",
        mkToolStep ("\x7b\"transaction\":\"abc\"\x7d")]).type = resTool :=
  ⟨rfl, rfl, rfl,
    (claim1_two_step_error_then_payload "Error: boom" ("\x7b\"transaction\":\"abc\"\x7d") ""
      (Json.obj [("transaction", Json.str "abc")]) rfl rfl rfl).1⟩

/-- C2 counterexample: with two successive payload-bearing steps the scan
does not stop at the first one; the result is the second step's object,
not the first step's. -/
theorem claim2_counterexample :
    (scanSteps [mkToolStep ("\x7b\"transaction\":\"one\"\x7d"),
        mkToolStep ("\x7b\"transaction\":\"two\"\x7d")]).1 =
      some (Json.obj [("transaction", Json.str "two")]) ∧
    (scanSteps [mkToolStep ("\x7b\"transaction\":\"one\"\x7d"),
        mkToolStep ("\x7b\"transaction\":\"two\"\x7d")]).1 ≠
      some (Json.obj [("transaction", Json.str "one")]) ∧
    Json.parse ("\x7b\"transaction\":\"one\"\x7d") =
      some (Json.obj [("transaction", Json.str "one")]) ∧
    jsonFieldTruthy (Json.obj [("transaction", Json.str "one")]) txKey = true := by
  refine ⟨rfl, ?_, rfl, rfl⟩
  intro h
  have h2 := Option.some.inj ((rfl :
    (scanSteps [mkToolStep ("\x7b\"transaction\":\"one\"\x7d"),
      mkToolStep ("\x7b\"transaction\":\"two\"\x7d")]).1 =
      some (Json.obj [("transaction", Json.str "two")])).symm.trans h)
  exact absurd (congrArg Json.stringify h2) (by decide)

/-- C2 amended: the scan continues over all steps and later transaction
objects overwrite earlier ones, so the payload is the one from the last
step whose output parses with a truthy transaction key. -/
theorem claim2_last_step_wins (pre : List Step) (r : String) (p : Json)
    (hr : Json.parse r = some p) (ht : jsonFieldTruthy p txKey = true) :
    (scanSteps (pre ++ [mkToolStep r])).1 = some p := by
  unfold scanSteps
  rw [List.foldl_append, List.foldl_cons, List.foldl_nil, scanStep_toolStep _ r,
    scanItem_tx _ r p hr ht]

/-- Witness for the amended C2: an earlier payload step is overwritten. -/
theorem claim2_amended_witness :
    Json.parse ("\x7b\"transaction\":\"two\"\x7d") =
      some (Json.obj [("transaction", Json.str "two")]) ∧
    jsonFieldTruthy (Json.obj [("transaction", Json.str "two")]) txKey = true ∧
    (scanSteps ([mkToolStep ("\x7b\"transaction\":\"one\"\x7d")] ++
        [mkToolStep ("\x7b\"transaction\":\"two\"\x7d")])).1 =
      some (Json.obj [("transaction", Json.str "two")]) :=
  ⟨rfl, rfl,
    claim2_last_step_wins [mkToolStep ("\x7b\"transaction\":\"one\"\x7d")]
      ("\x7b\"transaction\":\"two\"\x7d") (Json.obj [("transaction", Json.str "two")]) rfl rfl⟩

/-- C3 counterexample: a ToolResult with isError set but carrying a text
fragment makes the executor return the joined text "boom", not a
descriptive failure string. -/
theorem claim3_counterexample :
    (ToolResult.mk (some [⟨textTag, some "boom"⟩]) true).isError = true ∧
    executeTool ("\x7b\x7d")
      (fun _ => Except.ok ⟨some [⟨textTag, some "boom"⟩], true⟩) = "boom" ∧
    ("boom" : String) ≠ toolFailMsg ∧ ("boom" : String) ≠ noContentMsg ∧
    ("boom" : String) ≠ argErrMsg :=
  ⟨rfl, rfl, by decide, by decide, by decide⟩

/-- C3 amended: the executor returns the newline-joined text fragments
whenever at least one is present (even when isError is set); the failure
strings appear only when there is no text content, chosen by isError. -/
theorem claim3_execute_result_shape (argsStr : String) (a : Json)
    (h : Json.parse argsStr = some a) (r : ToolResult) :
    executeTool argsStr (fun _ => Except.ok r) =
      (if collectTexts r ≠ [] then String.intercalate nlStr (collectTexts r)
       else if r.isError then toolFailMsg else noContentMsg) := by
  unfold executeTool
  rw [h]

/-- Witness for the amended C3: no content and isError gives the failure
message. -/
theorem claim3_amended_witness :
    Json.parse ("\x7b\x7d") = some (Json.obj []) ∧
    executeTool ("\x7b\x7d") (fun _ => Except.ok ⟨none, true⟩) =
      (if collectTexts ⟨none, true⟩ ≠ [] then
        String.intercalate nlStr (collectTexts ⟨none, true⟩)
       else if (ToolResult.mk none true).isError then toolFailMsg else noContentMsg) :=
  ⟨rfl, claim3_execute_result_shape ("\x7b\x7d") (Json.obj []) rfl ⟨none, true⟩⟩

/-- C4: when the model's final text is empty the response content is
synthesized from exactly one of the four cases, in priority order:
payload announcement, tool error, tool-call fallback, nothing. -/
theorem claim4_empty_text_synthesis (steps : List Step) :
    (processResult "" steps).content =
      (match (scanSteps steps).1, (scanSteps steps).2 with
       | some p, _ => announceMsg p
       | none, some e => issueHead ++ e
       | none, none =>
         if hadAnyToolCalls steps then
           (if lastTRText steps ≠ "" then trHead ++ lastTRText steps else noDataMsg)
         else "") := by
  rw [processResult_content]
  unfold responseContent synthContent
  rcases h1 : (scanSteps steps).1 with _ | p
  · rcases h2 : (scanSteps steps).2 with _ | e
    · simp
    · simp
  · simp

/-- C5: when the bridge result's content array carries a text item that
is a serialized JSON object with a truthy transaction key, the endpoint
response has type tool_result and result.content[0].text parses back to
an object with the same transaction value (round trip through the
extractor and the response wrapper). -/
theorem claim5_payload_roundtrip (argsStr : String) (a : Json)
    (ha : Json.parse argsStr = some a)
    (sTx : String) (p : Json) (hp : Json.parse sTx = some p)
    (hflat : isFlatStrObj p = true)
    (tx : Json) (htx : Json.getField p txKey = some tx) (htr : tx.truthy = true)
    (isErr : Bool) (text : String) :
    (processResult text
        [mkToolStep (executeTool argsStr
          (fun _ => Except.ok ⟨some [⟨textTag, some sTx⟩], isErr⟩))]).type = resTool ∧
    ∃ q,
      (processResult text
          [mkToolStep (executeTool argsStr
            (fun _ => Except.ok ⟨some [⟨textTag, some sTx⟩], isErr⟩))]).result =
        some [⟨textTag, Json.stringify p⟩] ∧
      Json.parse (Json.stringify p) = some q ∧
      Json.getField q txKey = some tx := by
  have hne : sTx ≠ "" := parse_nonempty hp
  have hct : collectTexts ⟨some [⟨textTag, some sTx⟩], isErr⟩ = [sTx] := by
    simp [collectTexts, textTruthy, hne]
  have hout : executeTool argsStr
      (fun _ => Except.ok ⟨some [⟨textTag, some sTx⟩], isErr⟩) = sTx := by
    unfold executeTool
    rw [ha]
    simp [hct, intercalate_single]
  have htruthy : jsonFieldTruthy p txKey = true := by
    unfold jsonFieldTruthy
    rw [htx]
    exact htr
  have hscan : scanSteps [mkToolStep sTx] = (some p, none) := by
    show scanStep (none, none) (mkToolStep sTx) = (some p, none)
    rw [scanStep_toolStep (none, none) sTx, scanItem_tx (none, none) sTx p hp htruthy]
  rw [hout]
  have hpay : requestPayload text [mkToolStep sTx] = some p :=
    requestPayload_of_scan_some text (by rw [hscan])
  rw [processResult_of_payload hpay]
  exact ⟨rfl, p, rfl, parse_stringify_flat p hflat, htx⟩

/-- Witness for C5 at a concrete base64-like payload. -/
theorem claim5_witness :
    Json.parse ("\x7b\x7d") = some (Json.obj []) ∧
    Json.parse ("\x7b\"transaction\":\"dGVzdA==\"\x7d") =
      some (Json.obj [("transaction", Json.str "dGVzdA==")]) ∧
    isFlatStrObj (Json.obj [("transaction", Json.str "dGVzdA==")]) = true ∧
    Json.getField (Json.obj [("transaction", Json.str "dGVzdA==")]) txKey =
      some (Json.str "dGVzdA==") ∧
    (Json.str "dGVzdA==").truthy = true ∧
    (processResult ""
        [mkToolStep (executeTool ("\x7b\x7d")
          (fun _ => Except.ok ⟨some [⟨textTag, some ("\x7b\"transaction\":\"dGVzdA==\"\x7d")⟩],
            false⟩))]).type = resTool :=
  ⟨rfl, rfl, rfl, rfl, rfl,
    (claim5_payload_roundtrip ("\x7b\x7d") (Json.obj []) rfl
      ("\x7b\"transaction\":\"dGVzdA==\"\x7d") (Json.obj [("transaction", Json.str "dGVzdA==")])
      rfl rfl (Json.str "dGVzdA==") rfl rfl false "").1⟩

/-- C6: a tool invocation whose arguments string is not valid JSON is
converted to the fixed guidance string returned into the model's
context, and the request still produces a well-formed 200 response
(type text or tool_result), never an error shape. -/
theorem claim6_bad_args_recoverable (argsStr : String) (h : Json.parse argsStr = none)
    (bridge : Json → Except String ToolResult) (text : String) (steps : List Step) :
    executeTool argsStr bridge = argErrMsg ∧
    ((processResult text (steps ++ [mkToolStep (executeTool argsStr bridge)])).type = resText ∨
     (processResult text (steps ++ [mkToolStep (executeTool argsStr bridge)])).type = resTool) := by
  constructor
  · unfold executeTool
    rw [h]
  · exact processResult_type_or _ _

/-- Witness for C6 at a concrete malformed argument string. -/
theorem claim6_witness :
    Json.parse "not json" = none ∧
    executeTool "not json" (fun _ => Except.ok ⟨none, false⟩) = argErrMsg :=
  ⟨rfl,
    (claim6_bad_args_recoverable "not json" rfl (fun _ => Except.ok ⟨none, false⟩) "" []).1⟩

/-- C7 counterexample: a payload that HAS a baseMint field, with the
falsy value "", is still classified as "swap", contradicting the claim
that the creation tool name is used whenever the field is present. -/
theorem claim7_counterexample :
    Json.getField (Json.obj [("transaction", Json.str "t"), ("baseMint", Json.str "")])
      baseMintKey = some (Json.str "") ∧
    Json.parse ("\x7b\"transaction\":\"t\",\"baseMint\":\"\"\x7d") =
      some (Json.obj [("transaction", Json.str "t"), ("baseMint", Json.str "")]) ∧
    (processResult "hi"
        [mkToolStep ("\x7b\"transaction\":\"t\",\"baseMint\":\"\"\x7d")]).tool =
      some swapName ∧
    swapName ≠ createName :=
  ⟨rfl, rfl, rfl, by decide⟩

/-- C7 amended: the tool field is the heuristic name of the payload when
one exists ("swap" exactly when the baseMint field is absent or falsy,
else the creation tool name) and the payload is wrapped as a single-item
content array in the result field. -/
theorem claim7_tool_classification (text : String) (steps : List Step) :
    ((processResult text steps).tool = (requestPayload text steps).map inferToolName) ∧
    ((processResult text steps).result =
      (requestPayload text steps).map (fun p => [⟨textTag, Json.stringify p⟩])) ∧
    (∀ p : Json, inferToolName p = swapName ↔ jsonFieldTruthy p baseMintKey = false) := by
  refine ⟨?_, ?_, ?_⟩
  · unfold processResult
    cases h : requestPayload text steps <;> simp
  · unfold processResult
    cases h : requestPayload text steps <;> simp
  · intro p
    unfold inferToolName
    cases hb : jsonFieldTruthy p baseMintKey <;> simp [swapName, createName]

/-- C8: with no payload from the step scan and non-empty content, the
response payload comes from the final-text scan, which consults the
fenced pattern first and the bare pattern only when the fenced one does
not match. -/
theorem claim8_fenced_preferred (text : String) (steps : List Step)
    (h0 : (scanSteps steps).1 = none)
    (h1 : responseContent text steps ≠ "") :
    (requestPayload text steps = finalTextScan (responseContent text steps)) ∧
    (∀ cap, fencedMatch (responseContent text steps) = some cap →
      requestPayload text steps = Json.parse cap) ∧
    (fencedMatch (responseContent text steps) = none →
      requestPayload text steps = (bareMatch (responseContent text steps)).bind Json.parse) := by
  have hrp : requestPayload text steps = finalTextScan (responseContent text steps) := by
    unfold requestPayload
    rw [h0]
    simp [h1]
  refine ⟨hrp, ?_, ?_⟩
  · intro cap hc
    rw [hrp]
    unfold finalTextScan
    rw [hc]
  · intro hc
    rw [hrp]
    unfold finalTextScan
    rw [hc]
    cases hb : bareMatch (responseContent text steps) <;> simp

/-- Witness for C8 on an empty step history and plain text content. -/
theorem claim8_witness :
    (scanSteps ([] : List Step)).1 = none ∧
    responseContent "hello" [] ≠ "" ∧
    requestPayload "hello" [] = finalTextScan (responseContent "hello" []) :=
  ⟨rfl, by decide, (claim8_fenced_preferred "hello" [] rfl (by decide)).1⟩

def itemUnparseable (it : StepItem) : Bool :=
  (Json.parse (mkResultStr it.output)).isNone

def stepUnparseable (st : Step) : Bool :=
  match st.content with
  | some items => items.all itemUnparseable
  | none => true

/- Every candidate string in the step history fails JSON.parse. -/
def allUnparseable (steps : List Step) : Bool :=
  steps.all stepUnparseable

theorem scanItem_fst_none (acc : ScanAcc) (it : StepItem)
    (h : Json.parse (mkResultStr it.output) = none) (ha : acc.1 = none) :
    (scanItem acc it).1 = none := by
  unfold scanItem
  by_cases ht : it.type = toolResTag
  · simp only [if_pos ht]
    by_cases he : mkResultStr it.output = ""
    · simp [he, ha]
    · by_cases hpre : (strStartsWith (mkResultStr it.output) errHead1 ||
        strStartsWith (mkResultStr it.output) errHead2) = true
      · simp [he, hpre, ha]
      · rw [if_neg he, if_neg hpre, h]
        cases hinc : strIncludes (mkResultStr it.output) errWord <;> simp [hinc, ha]
  · simp [ht, ha]

theorem scanAll_fst_none :
    ∀ (items : List StepItem) (acc : ScanAcc),
      acc.1 = none → items.all itemUnparseable = true →
      (items.foldl scanItem acc).1 = none
  | [], _, ha, _ => ha
  | it :: rest, acc, ha, h => by
    rw [List.all_cons, Bool.and_eq_true] at h
    have hit : Json.parse (mkResultStr it.output) = none := by
      have := h.1
      unfold itemUnparseable at this
      exact Option.isNone_iff_eq_none.mp this
    rw [List.foldl_cons]
    exact scanAll_fst_none rest _ (scanItem_fst_none acc it hit ha) h.2

theorem scanStep_fst_none (acc : ScanAcc) (st : Step)
    (ha : acc.1 = none) (h : stepUnparseable st = true) :
    (scanStep acc st).1 = none := by
  unfold scanStep
  unfold stepUnparseable at h
  cases hc : st.content with
  | none => exact ha
  | some items =>
    rw [hc] at h
    exact scanAll_fst_none items acc ha h

theorem scanSteps_fst_none_of_all :
    ∀ (steps : List Step) (acc : ScanAcc),
      acc.1 = none → allUnparseable steps = true →
      (steps.foldl scanStep acc).1 = none
  | [], _, ha, _ => ha
  | st :: rest, acc, ha, h => by
    rw [allUnparseable, List.all_cons, Bool.and_eq_true] at h
    rw [List.foldl_cons]
    exact scanSteps_fst_none_of_all rest _ (scanStep_fst_none acc st ha h.1) h.2

/-- C9: payload extraction is a total function and parse failures only
mean "no payload here": when every candidate string in the step history
is malformed and the final text yields nothing, the scan produces no
payload and the response is a plain text response with no result. -/
theorem claim9_extraction_total (text : String) (steps : List Step)
    (h1 : allUnparseable steps = true)
    (h2 : finalTextScan (responseContent text steps) = none) :
    (scanSteps steps).1 = none ∧
    requestPayload text steps = none ∧
    (processResult text steps).type = resText ∧
    (processResult text steps).result = none := by
  have hs : (scanSteps steps).1 = none := scanSteps_fst_none_of_all steps (none, none) rfl h1
  have hrp : requestPayload text steps = none := by
    unfold requestPayload
    rw [hs]
    by_cases hc : responseContent text steps = ""
    · simp [hc]
    · simp [hc, h2]
  exact ⟨hs, hrp, by simp [processResult, hrp], by simp [processResult, hrp]⟩

/-- Witness for C9: one malformed tool output and harmless final text. -/
theorem claim9_witness :
    allUnparseable [mkToolStep "not json \x7borphan"] = true ∧
    finalTextScan (responseContent "hi" [mkToolStep "not json \x7borphan"]) = none ∧
    requestPayload "hi" [mkToolStep "not json \x7borphan"] = none :=
  ⟨rfl, rfl,
    (claim9_extraction_total "hi" [mkToolStep "not json \x7borphan"] rfl rfl).2.1⟩

/-- C10: when the fenced pattern matches but its capture fails to parse,
no payload is extracted from the final text at all; the bare pattern is
never consulted as a fallback. -/
theorem claim10_fenced_failure_no_fallback (content : String) (cap : String)
    (hm : fencedMatch content = some cap) (hp : Json.parse cap = none) :
    finalTextScan content = none := by
  unfold finalTextScan
  rw [hm]
  exact hp

/-- Witness for C10: the fenced block holds an unparseable capture while
a parseable bare object exists in the same text; extraction still yields
nothing. -/
theorem claim10_witness :
    fencedMatch ("x \x7b\"transaction\":\"ok\"\x7d y ```json \x7bbad\"transaction\"x\x7d```") =
      some ("\x7bbad\"transaction\"x\x7d") ∧
    Json.parse ("\x7bbad\"transaction\"x\x7d") = none ∧
    bareMatch ("x \x7b\"transaction\":\"ok\"\x7d y ```json \x7bbad\"transaction\"x\x7d```") =
      some ("\x7b\"transaction\":\"ok\"\x7d") ∧
    (Json.parse ("\x7b\"transaction\":\"ok\"\x7d")).isSome = true ∧
    finalTextScan ("x \x7b\"transaction\":\"ok\"\x7d y ```json \x7bbad\"transaction\"x\x7d```") =
      none :=
  ⟨rfl, rfl, rfl, rfl,
    claim10_fenced_failure_no_fallback
      ("x \x7b\"transaction\":\"ok\"\x7d y ```json \x7bbad\"transaction\"x\x7d```")
      ("\x7bbad\"transaction\"x\x7d") rfl rfl⟩
